import Mathlib

/-!
# mcp3008hwspi

A shallow embedding of `mcp3008hwspi.c` (the MCP3008 reader over Linux spidev) and the
properties of its argument loop, transfer batch, sampling loop and rate computation.

Conventions of the embedding.

* C `int` is the 32-bit two's complement type of the target. The products and sums of the
  source that an accepted command line can take out of its range (`ch_len * vSamples`,
  `count += ch_len * vBlocks`, `count + i`, `i * ch_len + j`) are reduced by `wrapInt`; the
  other `int` values stay small and are `Nat` or `Int`. A number on the command line is taken
  to fit in `int`.
* `double` values are rationals: every `double` of the source is computed from integers by
  one division and one addition, and is read here without rounding.
* A heap block is a map from element index to content, addressed from the block's first
  element. The blocks are disjoint: a store beyond the allocated extent of one lands beyond
  it and in no other block. The sampling loop records every index of `data` it stores to, and
  `dataElems` is the number of elements requested for `data`; that `malloc`, which the source
  does not check, is taken to succeed.
* An argument is the list of its characters; a character outside ASCII is rejected by the
  channel loop like the bytes that encode it.
* The world outside the program (allocator, `open`, `ioctl`, `gettimeofday`) is a value of
  type `Env`. `usleep` only lets time pass; the time slept is accumulated in the state.
* Releasing the descriptor and the buffers at `loop_done` has no effect on the exit status
  and is left out.
-/

namespace Mcp3008hwspi

/-! ## Constants (lines 20-33) -/

def MAX_ADC_CH : Nat := 8
def blocksDefault : Int := 1
def blocksMax : Int := 511
def channelDefault : Nat := 0
def samplesDefault : Int := 1000
def freqDefault : Int := 0
def clockRateDefault : Int := 3600000
def clockRateMin : Int := 1000000
def clockRateMax : Int := 3600000
def coldSamples : Int := 10000

/-! ## Machine integers -/

/-- The value of a 32-bit `int` holding the mathematical result `x`. -/
def wrapInt (x : Int) : Int :=
  (x + 2147483648) % 4294967296 - 2147483648

/-! ## Control structure -/

/-- The loop `for (i = 0; i < n; i++) s = body i s`. -/
def forLoop {σ : Type} : Nat → (Nat → σ → σ) → σ → σ
  | 0, _, s => s
  | n + 1, body, s => body n (forLoop n body s)

/-! ## The C library function `atoi` -/

/-- The `isspace` test of the C locale. -/
def isspace (c : Char) : Bool :=
  c = ' ' ∨ c = '\t' ∨ c = '\n' ∨ c.toNat = 11 ∨ c.toNat = 12 ∨ c = '\r'

/-- Accumulate the leading decimal digits of a string. -/
def atoiDigits : List Char → Int → Int
  | [], acc => acc
  | c :: cs, acc =>
    if 48 ≤ c.toNat ∧ c.toNat ≤ 57 then atoiDigits cs (acc * 10 + ((c.toNat : Int) - 48))
    else acc

/-- The function `atoi`: leading white space, an optional sign, then decimal digits; anything
after the digits is ignored, and a string without digits gives 0. -/
def atoi (s : String) : Int :=
  match s.toList.dropWhile isspace with
  | '-' :: cs => - atoiDigits cs 0
  | '+' :: cs => atoiDigits cs 0
  | cs => atoiDigits cs 0

/-! ## Argument loop (lines 94-192) -/

/-- What the argument loop writes to standard output. -/
inductive Msg where
  | wrongBlocks
  | wrongClockRate
  | wrongChannel (vChannel : Int)
  | channelTwice (vChannel : Nat)
  | wrongRate
  | usage
deriving DecidableEq, Repr

/-- The variables the argument loop assigns: the locals of `main` declared at lines 95-102 and
the two global arrays of lines 21-22, with the text printed so far. -/
structure Options where
  ch_len : Nat
  selectedChannels : List Nat
  channels : List Nat
  bSave : Int
  vSave : String
  vSamples : Int
  vFreq : Int
  vBlocks : Int
  vClockRate : Int
  out : List Msg
deriving DecidableEq, Repr

/-- The variables as initialised at lines 21-22 and 95-101. -/
def Options.init : Options :=
  { ch_len := 0
    selectedChannels := List.replicate MAX_ADC_CH 0
    channels := List.replicate MAX_ADC_CH 0
    bSave := 0
    vSave := ""
    vSamples := samplesDefault
    vFreq := freqDefault
    vBlocks := blocksDefault
    vClockRate := clockRateDefault
    out := [] }

/-- How the argument loop ends: it falls through to the rest of `main`, or `main` returns
`code`, or a store goes past the end of a fixed-size array (`channels`, `vSave`). -/
inductive ParseResult where
  | ok (o : Options)
  | exit (code : Int) (out : List Msg)
  | outOfBounds
deriving DecidableEq, Repr

/-- The options left by an argument loop that fell through to the rest of `main`. -/
def ParseResult.options : ParseResult → Option Options
  | .ok o => some o
  | _ => none

/-- The loop over the characters of the `-c` argument (lines 135-148); `j` is the index of the
first character of the list in the argument. -/
def channelLoop : List Char → Nat → Options → ParseResult
  | [], _, o => .ok o
  | c :: cs, j, o =>
    let vChannel : Int := (c.toNat : Int) - 48
    if vChannel < 0 ∨ vChannel > 7 then
      .exit 1 (o.out ++ [Msg.wrongChannel vChannel, Msg.usage])
    else
      let v := vChannel.toNat
      let o1 : Options :=
        if o.selectedChannels.getD v 0 ≠ 0 then
          { o with out := o.out ++ [Msg.channelTwice v, Msg.usage] }
        else o
      if j < MAX_ADC_CH then
        channelLoop cs (j + 1)
          { o1 with selectedChannels := o1.selectedChannels.set v 1
                    channels := o1.channels.set j v }
      else .outOfBounds

/-- The loop over `argv[1..argc-1]` (lines 103-188), on the arguments not yet read. -/
def parseArgs : List String → Options → ParseResult
  | [], o => .ok o
  | [_], o =>
    -- an option without its value, or an unknown argument: usage, `return 1`
    .exit 1 (o.out ++ [Msg.usage])
  | a :: v :: rest, o =>
    if a = "-b" ∨ a = "--block" then
      let vBlocks := atoi v
      if vBlocks < 1 ∨ vBlocks > blocksMax then
        .exit 1 (o.out ++ [Msg.wrongBlocks, Msg.usage])
      else parseArgs rest { o with vBlocks := vBlocks }
    else if a = "-r" ∨ a = "--clockrate" then
      let vClockRate := atoi v
      if vClockRate < clockRateMin ∨ vClockRate > clockRateMax then
        .exit 1 (o.out ++ [Msg.wrongClockRate, Msg.usage])
      else parseArgs rest { o with vClockRate := vClockRate }
    else if a = "-c" ∨ a = "--channels" then
      match channelLoop v.toList 0
          { o with ch_len := v.toList.length
                   selectedChannels := List.replicate MAX_ADC_CH 0 } with
      | .ok o1 => parseArgs rest o1
      | r => r
    else if a = "-s" ∨ a = "--save" then
      if v.utf8ByteSize < 256 then parseArgs rest { o with bSave := 1, vSave := v }
      else .outOfBounds
    else if a = "-n" ∨ a = "--samples" then
      parseArgs rest { o with vSamples := atoi v }
    else if a = "-f" ∨ a = "--freq" then
      let vFreq := atoi v
      if vFreq < 0 then .exit 1 (o.out ++ [Msg.wrongRate, Msg.usage])
      else parseArgs rest { o with vFreq := vFreq, vBlocks := 1 }
    else .exit 1 (o.out ++ [Msg.usage])

/-- Lines 189-192: without a channel argument, channel 0 is read. -/
def defaultChannel (o : Options) : Options :=
  if o.ch_len = 0 then { o with ch_len := 1, channels := o.channels.set 0 channelDefault }
  else o

/-- The configuration `main` runs with, for a given `argv` (program name first). -/
def parseCommandLine (argv : List String) : ParseResult :=
  match parseArgs (argv.drop 1) Options.init with
  | .ok o => .ok (defaultChannel o)
  | r => r

/-! ## Transfer batch (lines 205-236) -/

/-- The fields of `struct spi_ioc_transfer` the program assigns. A buffer field is `none` for
the null pointer and `some a` for the address of byte `a` of the `tx` (or `rx`) block. -/
structure spi_ioc_transfer where
  tx_buf : Option Nat
  rx_buf : Option Nat
  len : Nat
  speed_hz : Int
  cs_change : Nat
deriving DecidableEq, Repr

/-- A descriptor after `memset(tr, 0, ...)`. -/
def zeroTransfer : spi_ioc_transfer :=
  { tx_buf := none, rx_buf := none, len := 0, speed_hz := 0, cs_change := 0 }

/-- The descriptor array `tr` and the command bytes `tx` it points into. -/
structure Batch where
  tr : List spi_ioc_transfer
  tx : Nat → Nat

/-- The body of the inner loop, lines 228-233. -/
def fillEntry (channels : List Nat) (ch_len : Nat) (vClockRate : Int) (i j : Nat)
    (m : Batch) : Batch :=
  { tx := Function.update m.tx ((i * ch_len + j) * 4)
      ((0x60 ||| (channels.getD j 0 <<< 2)) % 256)
    tr := m.tr.set (i * ch_len + j)
      { tx_buf := some ((i * ch_len + j) * 4)
        rx_buf := some ((i * ch_len + j) * 4)
        len := 3
        speed_hz := vClockRate
        cs_change := 1 } }

/-- Lines 223-224 and 226-236: the descriptors and command bytes of one submission. `txMem` is
the content of the `tx` block as `malloc` returned it. -/
def buildBatch (channels : List Nat) (ch_len vBlocks : Nat) (vClockRate : Int)
    (txMem : Nat → Nat) : Batch :=
  let m0 : Batch :=
    { tr := List.replicate (ch_len * vBlocks) zeroTransfer
      tx := fun a => if a < ch_len * vBlocks then 0 else txMem a }
  let m1 := forLoop vBlocks
    (fun i m => forLoop ch_len (fun j m => fillEntry channels ch_len vClockRate i j m) m) m0
  { m1 with
    tr := m1.tr.set (ch_len * vBlocks - 1)
      { m1.tr.getD (ch_len * vBlocks - 1) zeroTransfer with cs_change := 0 } }

/-- The first command byte of descriptor `d`: the byte its `tx_buf` points to. -/
def commandByte (m : Batch) (d : Nat) : Option Nat :=
  (m.tr[d]?.bind fun x => x.tx_buf).map m.tx

/-! ## Bus transactions -/

/-- What the device answers to one submission: `resp d t` is byte `t` clocked in during
transfer `d`, an `unsigned char`. -/
abbrev Response := Nat → Nat → Fin 256

/-- Transfer `d` of a submission: its `len` answer bytes are stored from `rx_buf` on. -/
def receive (resp : Response) (d : Nat) (x : spi_ioc_transfer) (rx : Nat → Nat) : Nat → Nat :=
  match x.rx_buf with
  | some a0 => fun a => if a0 ≤ a ∧ a < a0 + x.len then (resp d (a - a0)).val else rx a
  | none => rx

/-- The macro `SPI_MSGSIZE(N)` of `linux/spi/spidev.h`: the size in bytes of `N` descriptors
of 32 bytes each when that is below `1 << 14` (the size field of an `ioctl` request number has
14 bits), else 0. -/
def SPI_MSGSIZE (n : Nat) : Nat :=
  if n * 32 < 2 ^ 14 then n * 32 else 0

/-- The number of descriptors the request `SPI_IOC_MESSAGE(n)` carries: the driver divides the
size in the request number by the size of a descriptor, and a request of size 0 succeeds
without a transfer. -/
def messageLength (n : Nat) : Nat :=
  SPI_MSGSIZE n / 32

/-- The effect on the `rx` block of `m` transfers described by `tr`. -/
def spiTransfers (resp : Response) (m : Nat) (tr : List spi_ioc_transfer) (rx : Nat → Nat) :
    Nat → Nat :=
  forLoop m (fun d rx => receive resp d (tr.getD d zeroTransfer) rx) rx

/-- The effect on the `rx` block of a successful `ioctl(fd, SPI_IOC_MESSAGE(n), tr)`. -/
def spiMessage (resp : Response) (n : Nat) (tr : List spi_ioc_transfer) (rx : Nat → Nat) :
    Nat → Nat :=
  spiTransfers resp (messageLength n) tr rx

/-! ## Warm-up and sampling loops (lines 243-268) -/

/-- The state of the two loops: `count`, the number of `ioctl` calls made so far, the `rx` and
`data` blocks, the indices of `data` stored to so far, and the microseconds slept. -/
structure LoopState where
  count : Int
  calls : Nat
  rx : Nat → Nat
  data : Int → Int
  stores : List Int
  slept : Int

/-- How a loop ends: its condition became false, or an `ioctl` returned a negative value
(`goto loop_done`), or the model ran out of steps. -/
inductive LoopResult where
  | done (s : LoopState)
  | ioctlFailed (s : LoopState)
  | outOfFuel

/-- The indices stored to by a loop that ran to its end or to a failing `ioctl`. -/
def LoopResult.stores : LoopResult → Option (List Int)
  | .done s => some s.stores
  | .ioctlFailed s => some s.stores
  | .outOfFuel => none

/-- The final `count` of a loop that ran to its end. -/
def LoopResult.count : LoopResult → Option Int
  | .done s => some s.count
  | _ => none

/-- The warm-up loop (lines 243-249). `bus c` is the outcome of `ioctl` call number `c` of the
run: `none` for a negative return value, else the device's answer. -/
def warmupLoop (bus : Nat → Option Response) (tr : List spi_ioc_transfer) (n : Nat) :
    Nat → LoopState → LoopResult
  | 0, s => if s.count < coldSamples then .outOfFuel else .done s
  | fuel + 1, s =>
    if s.count < coldSamples then
      match bus s.calls with
      | none => .ioctlFailed { s with calls := s.calls + 1 }
      | some resp =>
        warmupLoop bus tr n fuel
          { s with rx := spiMessage resp n tr s.rx
                   calls := s.calls + 1
                   count := wrapInt (s.count + n) }
    else .done s

/-- Line 261: the value decoded from the answer bytes at `rx[j+1]`, `rx[j+2]`. -/
def decode (rx : Nat → Nat) (j : Nat) : Nat :=
  (rx (j + 1) <<< 2) + (rx (j + 2) >>> 6)

/-- The variables of the decoding loop: `j`, the `data` block and the indices stored to. -/
structure DecodeState where
  j : Nat
  data : Int → Int
  stores : List Int

/-- The decoding loop (lines 260-263) over `n` descriptors. -/
def decodeLoop (n : Nat) (count : Int) (rx : Nat → Nat) (s : DecodeState) : DecodeState :=
  forLoop n
    (fun i s =>
      { j := s.j + 4
        data := Function.update s.data (wrapInt (count + i)) (decode rx s.j : Nat)
        stores := s.stores ++ [wrapInt (count + i)] })
    s

/-- The body of the measured loop after a successful `ioctl` (lines 260-267). -/
def sampleBatch (resp : Response) (tr : List spi_ioc_transfer) (n : Nat) (microDelay : Int)
    (s : LoopState) : LoopState :=
  let rx := spiMessage resp n tr s.rx
  let d := decodeLoop n s.count rx { j := 0, data := s.data, stores := s.stores }
  { count := wrapInt (s.count + n)
    calls := s.calls + 1
    rx := rx
    data := d.data
    stores := d.stores
    slept := if microDelay > 0 then s.slept + microDelay else s.slept }

/-- The measured sampling loop (lines 255-268); `limit` is the `int` value of
`ch_len * vSamples`. -/
def measureLoop (bus : Nat → Option Response) (tr : List spi_ioc_transfer) (n : Nat)
    (limit : Int) (microDelay : Int) : Nat → LoopState → LoopResult
  | 0, s => if s.count < limit then .outOfFuel else .done s
  | fuel + 1, s =>
    if s.count < limit then
      match bus s.calls with
      | none => .ioctlFailed { s with calls := s.calls + 1 }
      | some resp => measureLoop bus tr n limit microDelay fuel (sampleBatch resp tr n microDelay s)
    else .done s

/-- Line 204: the number of `int` elements requested for the `data` block. -/
def dataElems (ch_len : Nat) (vSamples : Int) : Int :=
  wrapInt (ch_len * vSamples)

/-! ## Rate computation (lines 269-286) -/

/-- The fields of `struct timeval`. -/
structure timeval where
  tv_sec : Int
  tv_usec : Int
deriving DecidableEq, Repr

/-- Lines 273-280: the value of `diff`, in seconds. -/
def elapsed (start end_ : timeval) : ℚ :=
  if end_.tv_usec > start.tv_usec then
    ((end_.tv_usec - start.tv_usec : Int) : ℚ) / 1000000
      + ((end_.tv_sec - start.tv_sec : Int) : ℚ)
  else
    (((1000000 + end_.tv_usec) - start.tv_usec : Int) : ℚ) / 1000000
      + (((end_.tv_sec - 1) - start.tv_sec : Int) : ℚ)

/-- Lines 281-284: the value of `rate`. -/
def sampleRate (count : Int) (diff : ℚ) : ℚ :=
  if diff > 0 then (count : ℚ) / diff else 0

/-! ## Output (lines 287-334) -/

/-- The data lines written at lines 307-315 (file) or 325-333 (standard output): line `i`
lists, for every channel slot `j`, the pair printed by `"%d, %d"`. -/
def dataRows (ch_len : Nat) (vSamples : Int) (data : Int → Int) : List (List (Int × Int)) :=
  (List.range vSamples.toNat).map fun (i : Nat) =>
    (wrapInt ((i : Int) * ch_len), data (wrapInt ((i : Int) * ch_len))) ::
      ((List.range (ch_len - 1)).map fun (j : Nat) =>
        (wrapInt ((i : Int) * ch_len + ((j : Int) + 1)),
          data (wrapInt ((i : Int) * ch_len + ((j : Int) + 1)))))

/-- What a run prints: the summary line (`diff` and `rate` are `none` when the program prints
them without having assigned them), the channels of the header line and the data lines. -/
structure Report where
  diff : Option ℚ
  count : Int
  rate : Option ℚ
  header : List Nat
  rows : List (List (Int × Int))

/-! ## The program -/

/-- The world outside the program. -/
structure Env where
  /-- The content of the `data` block as `malloc` returned it. -/
  dataMem : Int → Int
  /-- Whether the `malloc` calls of lines 208, 213 and 218 succeed. -/
  trAlloc : Bool
  txAlloc : Bool
  rxAlloc : Bool
  /-- The content of the `tx` and `rx` blocks as `malloc` returned them. -/
  txMem : Nat → Nat
  rxMem : Nat → Nat
  /-- The value returned by `open`. -/
  fd : Int
  /-- The outcome of the `ioctl` calls, in the order in which they are made. -/
  bus : Nat → Option Response
  /-- The outcome of the two `gettimeofday` calls: `none` for a negative return value. -/
  start : Option timeval
  end_ : Option timeval

/-- How `main` ends: it returns `code`, having printed `report` if it got that far; or a store
went past a fixed-size array while reading the arguments; or the model ran out of steps. -/
inductive MainResult where
  | returned (code : Int) (report : Option Report)
  | outOfBounds
  | outOfFuel

/-- The exit status of a run that returned. -/
def MainResult.exitCode : MainResult → Option Int
  | .returned code _ => some code
  | _ => none

/-- Lines 193-344, for the options `o` left by the argument loop. -/
def run (env : Env) (o : Options) (fuel : Nat) : MainResult :=
  let microDelay : Int := if o.vFreq ≠ 0 then Int.tdiv 1000000 o.vFreq else 0
  let n := o.ch_len * o.vBlocks.toNat
  if ¬ env.trAlloc then .returned 0 none
  else if ¬ env.txAlloc then .returned 0 none
  else if ¬ env.rxAlloc then .returned 0 none
  else
    let batch := buildBatch o.channels o.ch_len o.vBlocks.toNat o.vClockRate env.txMem
    let rx0 : Nat → Nat := fun a => if a < n then 0 else env.rxMem a
    if env.fd < 0 then .returned 0 none
    else
      match warmupLoop env.bus batch.tr n fuel
          { count := 0, calls := 0, rx := rx0, data := env.dataMem, stores := [], slept := 0 } with
      | .outOfFuel => .outOfFuel
      | .ioctlFailed _ => .returned 0 none
      | .done w =>
        match env.start with
        | none => .returned 1 none
        | some start =>
          match measureLoop env.bus batch.tr n (wrapInt (o.ch_len * o.vSamples)) microDelay fuel
              { w with count := 0 } with
          | .outOfFuel => .outOfFuel
          | .ioctlFailed _ => .returned 0 none
          | .done s =>
            let diff : Option ℚ :=
              if s.count > 0 then env.end_.map (elapsed start) else none
            .returned 0 (some
              { diff := diff
                count := s.count
                rate := diff.map (sampleRate s.count)
                header := (List.range o.ch_len).map fun i => o.channels.getD i 0
                rows := dataRows o.ch_len o.vSamples s.data })

/-- The function `main`, on the argument vector `argv` (program name first). -/
def main (env : Env) (argv : List String) (fuel : Nat) : MainResult :=
  match parseCommandLine argv with
  | .ok o => run env o fuel
  | .exit code _ => .returned code none
  | .outOfBounds => .outOfBounds

/-! ## Sample environments -/

/-- A device that answers every transfer with zero bytes. -/
def zeroResponse : Response :=
  fun _ _ => 0

/-- A world in which every call succeeds and the device answers with zero bytes. -/
def quietEnv : Env :=
  { dataMem := fun _ => 0
    trAlloc := true
    txAlloc := true
    rxAlloc := true
    txMem := fun _ => 0
    rxMem := fun _ => 0
    fd := 3
    bus := fun _ => some zeroResponse
    start := some { tv_sec := 0, tv_usec := 0 }
    end_ := some { tv_sec := 2, tv_usec := 500000 } }

/-! ## Vocabulary of the proofs -/

/-- The descriptor the inner loop of `buildBatch` writes at index `e`. -/
def filledTransfer (vClockRate : Int) (e : Nat) : spi_ioc_transfer :=
  { tx_buf := some (e * 4), rx_buf := some (e * 4), len := 3, speed_hz := vClockRate,
    cs_change := 1 }

/-- The byte stored at line 228 for channel `c`. -/
def channelCommand (c : Nat) : Nat :=
  (0x60 ||| (c <<< 2)) % 256

/-- The state of the batch when its first `c` descriptors have been written. -/
def Filled (channels : List Nat) (ch_len vBlocks : Nat) (vClockRate : Int) (c : Nat)
    (m : Batch) : Prop :=
  m.tr.length = ch_len * vBlocks
    ∧ (∀ e, e < c → m.tr[e]? = some (filledTransfer vClockRate e))
    ∧ (∀ e, e < c → m.tx (e * 4) = channelCommand (channels.getD (e % ch_len) 0))

/-- The counters of the sampling loop after `t` successful submissions of `n` descriptors
each, started in `s0`. -/
def Counted (n : Nat) (s0 : LoopState) (t : Nat) (s : LoopState) : Prop :=
  s.count = ((t * n : Nat) : Int)
    ∧ s.calls = s0.calls + t
    ∧ s.stores = s0.stores ++ (List.range (t * n)).map fun (p : Nat) => (p : Int)

/-- An invariant that every iteration preserves holds when the loop ends. -/
theorem forLoop_invariant {σ : Type} (P : Nat → σ → Prop) (body : Nat → σ → σ) (s : σ)
    (n : Nat) (h0 : P 0 s) (hstep : ∀ i t, i < n → P i t → P (i + 1) (body i t)) :
    P n (forLoop n body s) := by
  induction n with
  | zero => exact h0
  | succ m ih =>
    exact hstep m _ (Nat.lt_succ_self m)
      (ih fun i t hi hP => hstep i t (Nat.lt_succ_of_lt hi) hP)

/-! ## Transfer batch -/

theorem fillEntry_filled (channels : List Nat) (ch_len vBlocks : Nat) (vClockRate : Int)
    (i j : Nat) (m : Batch) (hi : i < vBlocks) (hj : j < ch_len)
    (h : Filled channels ch_len vBlocks vClockRate (i * ch_len + j) m) :
    Filled channels ch_len vBlocks vClockRate (i * ch_len + (j + 1))
      (fillEntry channels ch_len vClockRate i j m) := by
  obtain ⟨hlen, htr, htx⟩ := h
  have hbound : i * ch_len + j < ch_len * vBlocks := by
    have h1 : (i + 1) * ch_len ≤ vBlocks * ch_len := Nat.mul_le_mul_right _ hi
    have h2 : (i + 1) * ch_len = i * ch_len + ch_len := Nat.succ_mul _ _
    have h3 : vBlocks * ch_len = ch_len * vBlocks := Nat.mul_comm _ _
    omega
  have hmod : (i * ch_len + j) % ch_len = j := by
    rw [Nat.mul_comm, Nat.mul_add_mod, Nat.mod_eq_of_lt hj]
  refine ⟨?_, ?_, ?_⟩
  · simp [fillEntry, hlen]
  · intro e he
    by_cases heq : e = i * ch_len + j
    · subst heq
      simp only [fillEntry]
      rw [List.getElem?_set_self (by omega)]
      rfl
    · simp only [fillEntry]
      rw [List.getElem?_set_ne (by omega)]
      exact htr e (by omega)
  · intro e he
    by_cases heq : e = i * ch_len + j
    · subst heq
      simp only [fillEntry, Function.update_same, hmod]
      rfl
    · simp only [fillEntry]
      rw [Function.update_noteq (by omega)]
      exact htx e (by omega)

theorem fillLoops_filled (channels : List Nat) (ch_len vBlocks : Nat) (vClockRate : Int)
    (m : Batch) (h : Filled channels ch_len vBlocks vClockRate 0 m) :
    Filled channels ch_len vBlocks vClockRate (vBlocks * ch_len)
      (forLoop vBlocks
        (fun i m => forLoop ch_len (fun j m => fillEntry channels ch_len vClockRate i j m) m)
        m) := by
  refine forLoop_invariant
    (fun i m => Filled channels ch_len vBlocks vClockRate (i * ch_len) m) _ m vBlocks
    (by simpa using h) ?_
  intro i t hi ht
  have hinner := forLoop_invariant
    (fun j m => Filled channels ch_len vBlocks vClockRate (i * ch_len + j) m)
    (fun j m => fillEntry channels ch_len vClockRate i j m) t ch_len (by simpa using ht)
    (fun j u hj hu => fillEntry_filled channels ch_len vBlocks vClockRate i j u hi hj hu)
  have h2 : (i + 1) * ch_len = i * ch_len + ch_len := Nat.succ_mul _ _
  simpa [h2] using hinner

/-- What `buildBatch` returns, entry by entry. -/
theorem buildBatch_entries (channels : List Nat) (ch_len vBlocks : Nat) (vClockRate : Int)
    (txMem : Nat → Nat) :
    (buildBatch channels ch_len vBlocks vClockRate txMem).tr.length = ch_len * vBlocks
      ∧ (∀ e, e + 1 < ch_len * vBlocks →
          (buildBatch channels ch_len vBlocks vClockRate txMem).tr[e]?
            = some (filledTransfer vClockRate e))
      ∧ (∀ e, e + 1 = ch_len * vBlocks →
          (buildBatch channels ch_len vBlocks vClockRate txMem).tr[e]?
            = some { filledTransfer vClockRate e with cs_change := 0 })
      ∧ (∀ e, e < ch_len * vBlocks →
          (buildBatch channels ch_len vBlocks vClockRate txMem).tx (e * 4)
            = channelCommand (channels.getD (e % ch_len) 0)) := by
  have h0 : Filled channels ch_len vBlocks vClockRate 0
      { tr := List.replicate (ch_len * vBlocks) zeroTransfer
        tx := fun a => if a < ch_len * vBlocks then 0 else txMem a } :=
    ⟨by simp, fun e he => absurd he (Nat.not_lt_zero e), fun e he => absurd he (Nat.not_lt_zero e)⟩
  obtain ⟨hlen, htr, htx⟩ := fillLoops_filled channels ch_len vBlocks vClockRate _ h0
  rw [Nat.mul_comm vBlocks ch_len] at htr htx
  refine ⟨?_, ?_, ?_, ?_⟩
  · simp [buildBatch, hlen]
  · intro e he
    simp only [buildBatch]
    rw [List.getElem?_set_ne (by omega)]
    exact htr e (by omega)
  · intro e he
    have hidx : ch_len * vBlocks - 1 = e := by omega
    simp only [buildBatch]
    rw [hidx, List.getElem?_set_self (by omega), List.getD_eq_getElem?_getD, htr e (by omega)]
    rfl
  · intro e he
    simp only [buildBatch]
    exact htx e he

theorem some_getD_of_ne_none {α : Type} (o : Option α) (d : α) (h : o ≠ none) :
    o = some (o.getD d) := by
  cases o with
  | none => exact absurd rfl h
  | some a => rfl

theorem wrapInt_eq (x : Int) (h0 : -2147483648 ≤ x) (h1 : x < 2147483648) : wrapInt x = x := by
  unfold wrapInt
  omega

theorem decodeLoop_result (n c : Nat) (rx : Nat → Nat) (data : Int → Int)
    (stores : List Int) (hfit : c + n ≤ 2147483648) :
    (∀ p : Nat, (decodeLoop n (c : Int) rx { j := 0, data := data, stores := stores }).data p
        = if c ≤ p ∧ p < c + n then ((decode rx (4 * (p - c)) : Nat) : Int) else data p)
      ∧ (decodeLoop n (c : Int) rx { j := 0, data := data, stores := stores }).stores
          = stores ++ (List.range n).map fun i => ((c + i : Nat) : Int) := by
  have hgoal := forLoop_invariant
    (fun i (s : DecodeState) => i ≤ n ∧ s.j = 4 * i
      ∧ (∀ p : Nat, s.data p
          = if c ≤ p ∧ p < c + i then ((decode rx (4 * (p - c)) : Nat) : Int) else data p)
      ∧ s.stores = stores ++ (List.range i).map fun i => ((c + i : Nat) : Int))
    (fun i s =>
      { j := s.j + 4
        data := Function.update s.data (wrapInt ((c : Int) + i)) (decode rx s.j : Nat)
        stores := s.stores ++ [wrapInt ((c : Int) + i)] })
    { j := 0, data := data, stores := stores } n ?_ ?_
  · exact ⟨hgoal.2.2.1, hgoal.2.2.2⟩
  · refine ⟨Nat.zero_le n, rfl, fun p => ?_, by simp⟩
    have : ¬ (c ≤ p ∧ p < c + 0) := by omega
    rw [if_neg this]
  · intro i s hi hs
    obtain ⟨_, hj, hdata, hstores⟩ := hs
    have hw : wrapInt ((c : Int) + (i : Int)) = ((c + i : Nat) : Int) := by
      rw [wrapInt_eq _ (by omega) (by omega)]
      push_cast
      rfl
    refine ⟨hi, by simp only [hj]; omega, fun p => ?_, ?_⟩
    · beta_reduce
      rw [hw]
      dsimp only
      by_cases hp : p = c + i
      · subst hp
        have hin : c ≤ c + i ∧ c + i < c + (i + 1) := ⟨by omega, by omega⟩
        have hsub : c + i - c = i := by omega
        rw [Function.update_same, if_pos hin, hj, hsub]
      · have hne : (p : Int) ≠ ((c + i : Nat) : Int) := by omega
        rw [Function.update_noteq hne, hdata p]
        by_cases hlt : c ≤ p ∧ p < c + i
        · have hlt2 : c ≤ p ∧ p < c + (i + 1) := ⟨hlt.1, by omega⟩
          rw [if_pos hlt, if_pos hlt2]
        · have hlt2 : ¬ (c ≤ p ∧ p < c + (i + 1)) := by omega
          rw [if_neg hlt, if_neg hlt2]
    · beta_reduce
      rw [hw]
      dsimp only
      rw [hstores, List.range_succ, List.map_append, List.map_cons, List.map_nil,
        List.append_assoc]

theorem counted_step (resp : Response) (tr : List spi_ioc_transfer) (n : Nat)
    (microDelay : Int) (s0 s : LoopState) (t : Nat) (hfit : (t + 1) * n ≤ 2147483647)
    (hs : Counted n s0 t s) :
    Counted n s0 (t + 1) (sampleBatch resp tr n microDelay s) := by
  obtain ⟨hcount, hcalls, hstores⟩ := hs
  have hsucc : (t + 1) * n = t * n + n := Nat.succ_mul _ _
  obtain ⟨_, hst⟩ :=
    decodeLoop_result n (t * n) (spiMessage resp n tr s.rx) s.data s.stores (by omega)
  refine ⟨?_, ?_, ?_⟩
  · unfold sampleBatch
    dsimp only
    rw [hcount, wrapInt_eq _ (by omega) (by omega), hsucc]
    push_cast
    rfl
  · unfold sampleBatch
    dsimp only
    omega
  · unfold sampleBatch
    dsimp only
    rw [hcount, hst, hstores, hsucc, List.range_add, List.map_append, List.map_map,
      List.append_assoc]
    rfl

/-- A family of states that every batch carries one step further holds when the loop ends. -/
theorem measureLoop_invariant (I : Nat → LoopState → Prop) (bus : Nat → Option Response)
    (resp : Nat → Response) (tr : List spi_ioc_transfer) (n : Nat) (limit microDelay : Int)
    (c0 : Nat) (hbus : ∀ t, bus (c0 + t) = some (resp t))
    (hI : ∀ t s, I t s → s.count = ((t * n : Nat) : Int) ∧ s.calls = c0 + t)
    (hstep : ∀ t s, I t s → ((t * n : Nat) : Int) < limit →
      I (t + 1) (sampleBatch (resp t) tr n microDelay s)) :
    ∀ fuel t s, I t s →
      (t = 0 ∨ (((t - 1) * n : Nat) : Int) < limit) →
      limit ≤ (((t + fuel) * n : Nat) : Int) →
      ∃ t' s', measureLoop bus tr n limit microDelay fuel s = .done s'
        ∧ I t' s'
        ∧ limit ≤ ((t' * n : Nat) : Int)
        ∧ (t' = 0 ∨ (((t' - 1) * n : Nat) : Int) < limit) := by
  intro fuel
  induction fuel with
  | zero =>
    intro t s hs hprev hfuel
    have hc : ¬ (s.count < limit) := by
      rw [(hI t s hs).1]
      simpa using hfuel
    exact ⟨t, s, by simp [measureLoop, hc], hs, by simpa using hfuel, hprev⟩
  | succ fuel ih =>
    intro t s hs hprev hfuel
    by_cases hc : s.count < limit
    · have hcall : bus s.calls = some (resp t) := by rw [(hI t s hs).2]; exact hbus t
      have hlt : ((t * n : Nat) : Int) < limit := by
        rw [(hI t s hs).1] at hc
        exact hc
      have hnext := hstep t s hs hlt
      have hlt' : (((t + 1 - 1) * n : Nat) : Int) < limit := by simpa using hlt
      have hfuel' : limit ≤ (((t + 1 + fuel) * n : Nat) : Int) := by
        have : t + 1 + fuel = t + (fuel + 1) := by omega
        rw [this]
        exact hfuel
      obtain ⟨t', s', hrun, hres⟩ := ih (t + 1) _ hnext (Or.inr hlt') hfuel'
      refine ⟨t', s', ?_, hres⟩
      rw [← hrun]
      simp only [measureLoop, hc, if_true, hcall]
    · have hge : limit ≤ ((t * n : Nat) : Int) := by
        rw [(hI t s hs).1] at hc
        omega
      exact ⟨t, s, by simp [measureLoop, hc], hs, hge, hprev⟩

theorem limit_eq (k n : Nat) (h : k * n < 2147483648) :
    wrapInt ((k : Int) * (n : Int)) = ((k * n : Nat) : Int) := by
  have h1 : ((k * n : Nat) : Int) = (k : Int) * (n : Int) := by push_cast; rfl
  rw [← h1, wrapInt_eq _ (by omega) (by omega)]

/-- The measured loop of `main`, started with `count = 0`, every `ioctl` succeeding, and the
`int` arithmetic in range: it ends, after `t` batches, and `t` is the least number of batches
that reaches `k * n`. -/
theorem measureLoop_counted (bus : Nat → Option Response) (tr : List spi_ioc_transfer)
    (k b n : Nat) (microDelay : Int) (s0 : LoopState) (fuel : Nat) (hk : 1 ≤ k) (hb : 1 ≤ b)
    (hfit : k * n + k * b ≤ 2147483648) (h0 : s0.count = 0) (hbus : ∀ c, bus c ≠ none)
    (hfuel : k * n ≤ fuel) :
    ∃ t st, measureLoop bus tr (k * b) (wrapInt ((k : Int) * (n : Int))) microDelay fuel s0
        = .done st
      ∧ Counted (k * b) s0 t st
      ∧ k * n ≤ t * (k * b)
      ∧ (t = 0 ∨ (t - 1) * (k * b) < k * n) := by
  have hN : 0 < k * b := Nat.mul_pos hk hb
  rw [limit_eq k n (by omega)]
  have hresp : ∀ t, bus (s0.calls + t)
      = some ((fun t => (bus (s0.calls + t)).getD (fun _ _ => 0)) t) :=
    fun t => some_getD_of_ne_none _ _ (hbus _)
  have hstart : Counted (k * b) s0 0 s0 := ⟨by simp [h0], by simp, by simp⟩
  have hlimit : ((k * n : Nat) : Int) ≤ (((0 + fuel) * (k * b) : Nat) : Int) := by
    have h1 : k * n ≤ (0 + fuel) * (k * b) := by
      rw [Nat.zero_add]
      exact Nat.le_trans hfuel (Nat.le_mul_of_pos_right _ hN)
    exact_mod_cast h1
  obtain ⟨t', st, hrun, hcounted, hdone, hprev⟩ :=
    measureLoop_invariant (Counted (k * b) s0) bus _ tr (k * b) ((k * n : Nat) : Int)
      microDelay s0.calls hresp (fun t s h => ⟨h.1, h.2.1⟩)
      (fun t s h hlt => by
        have hlt' : t * (k * b) < k * n := by exact_mod_cast hlt
        have hsucc : (t + 1) * (k * b) = t * (k * b) + k * b := Nat.succ_mul _ _
        exact counted_step _ tr (k * b) microDelay s0 s t (by omega) h)
      fuel 0 s0 hstart (Or.inl rfl) hlimit
  refine ⟨t', st, hrun, hcounted, by exact_mod_cast hdone, ?_⟩
  rcases hprev with h | h
  · exact Or.inl h
  · exact Or.inr (by exact_mod_cast h)

/-! ## Command bytes and output rows -/

theorem channelCommand_of_le (chan : Nat) (h7 : chan ≤ 7) :
    channelCommand chan = 0x60 ||| (chan <<< 2) := by
  unfold channelCommand
  interval_cases chan <;> rfl

theorem buildBatch_commandByte (channels : List Nat) (ch_len vBlocks : Nat) (vClockRate : Int)
    (txMem : Nat → Nat) (e : Nat) (he : e < ch_len * vBlocks) :
    commandByte (buildBatch channels ch_len vBlocks vClockRate txMem) e
      = some (channelCommand (channels.getD (e % ch_len) 0)) := by
  obtain ⟨_, hmid, hlast, htx⟩ := buildBatch_entries channels ch_len vBlocks vClockRate txMem
  unfold commandByte
  by_cases h : e + 1 < ch_len * vBlocks
  · rw [hmid e h]
    simp [filledTransfer, htx e he]
  · rw [hlast e (by omega)]
    simp [filledTransfer, htx e he]

/-- C1: for response bytes `rx[j+1]`, `rx[j+2]` in 0..255, the value the sampling loop stores,
`(rx[j+1] << 2) + (rx[j+2] >> 6)`, equals `(rx[j+1] << 2) | (rx[j+2] >> 6)` and is at most
1023; the response `(0x00, 0xFF, 0xC0)` decodes to 1023 and `(0x00, 0x00, 0x00)` to 0. -/
theorem decode_or_range (rx : Nat → Nat) (j : Nat)
    (h1 : rx (j + 1) < 256) (h2 : rx (j + 2) < 256) :
    decode rx j = (rx (j + 1) <<< 2) ||| (rx (j + 2) >>> 6)
      ∧ decode rx j ≤ 1023
      ∧ decode (fun a => [0x00, 0xFF, 0xC0].getD a 0) 0 = 1023
      ∧ decode (fun a => [0x00, 0x00, 0x00].getD a 0) 0 = 0 := by
  have hlow : rx (j + 2) / 2 ^ 6 < 2 ^ 2 := by
    have : rx (j + 2) / 64 < 4 := by omega
    simpa using this
  refine ⟨?_, ?_, by decide, by decide⟩
  · unfold decode
    rw [Nat.shiftLeft_eq, Nat.shiftRight_eq_div_pow, Nat.mul_comm (rx (j + 1)) (2 ^ 2)]
    exact Nat.mul_add_lt_is_or hlow _
  · unfold decode
    rw [Nat.shiftLeft_eq, Nat.shiftRight_eq_div_pow]
    have : rx (j + 2) / 64 < 4 := by omega
    norm_num
    omega

theorem decode_or_range_witness :
    decode (fun a => [0x12, 0xAB, 0x7F].getD a 0) 0 = (0xAB <<< 2) ||| (0x7F >>> 6)
      ∧ decode (fun a => [0x12, 0xAB, 0x7F].getD a 0) 0 ≤ 1023
      ∧ decode (fun a => [0x00, 0xFF, 0xC0].getD a 0) 0 = 1023
      ∧ decode (fun a => [0x00, 0x00, 0x00].getD a 0) 0 = 0 :=
  decode_or_range (fun a => [0x12, 0xAB, 0x7F].getD a 0) 0 (by decide) (by decide)

/-- C2: for `ch_len = k ≥ 1` channels and `vBlocks = b ≥ 1` blocks the batch built by `main`
has exactly `b * k` descriptors, every descriptor but the last has `cs_change = 1`, and the
last one, at index `b * k - 1`, has `cs_change = 0`; with `b * k = 1` the only descriptor has
`cs_change = 0`. -/
theorem batch_chip_select (channels : List Nat) (k b : Nat) (vClockRate : Int)
    (txMem : Nat → Nat) (hk : 1 ≤ k) (hb : 1 ≤ b) :
    (buildBatch channels k b vClockRate txMem).tr.length = b * k
      ∧ (∀ e, e < b * k - 1 →
          (buildBatch channels k b vClockRate txMem).tr[e]?.map (fun x => x.cs_change) = some 1)
      ∧ (buildBatch channels k b vClockRate txMem).tr[b * k - 1]?.map (fun x => x.cs_change)
          = some 0
      ∧ (buildBatch channels 1 1 vClockRate txMem).tr.map (fun x => x.cs_change) = [0] := by
  obtain ⟨hlen, hmid, hlast, _⟩ := buildBatch_entries channels k b vClockRate txMem
  have hpos : 0 < k * b := Nat.mul_pos hk hb
  have hcomm : b * k = k * b := Nat.mul_comm b k
  refine ⟨by rw [hlen, hcomm], ?_, ?_, rfl⟩
  · intro e he
    rw [hmid e (by omega)]
    rfl
  · rw [hlast (b * k - 1) (by omega)]
    rfl

theorem batch_chip_select_witness :
    (buildBatch [0, 1, 2, 3] 4 25 3600000 (fun _ => 0)).tr.length = 25 * 4
      ∧ (∀ e, e < 25 * 4 - 1 →
          (buildBatch [0, 1, 2, 3] 4 25 3600000 (fun _ => 0)).tr[e]?.map (fun x => x.cs_change)
            = some 1)
      ∧ (buildBatch [0, 1, 2, 3] 4 25 3600000 (fun _ => 0)).tr[25 * 4 - 1]?.map
          (fun x => x.cs_change) = some 0
      ∧ (buildBatch [0, 1, 2, 3] 1 1 3600000 (fun _ => 0)).tr.map (fun x => x.cs_change) = [0] :=
  batch_chip_select [0, 1, 2, 3] 4 25 3600000 (fun _ => 0) (by decide) (by decide)

/-- C3: for every block index `i < b` and channel slot `j < k`, the first command byte of
descriptor `i * k + j` of the built batch is `0x60 | (channels[j] << 2)` when `channels[j]` is
in 0..7; for channel 5 it is `0x74`. -/
theorem command_byte_of_descriptor (channels : List Nat) (k b : Nat) (vClockRate : Int)
    (txMem : Nat → Nat) (i j chan : Nat) (hi : i < b) (hj : j < k)
    (hchan : channels[j]? = some chan) (h7 : chan ≤ 7) :
    commandByte (buildBatch channels k b vClockRate txMem) (i * k + j)
        = some (0x60 ||| (chan <<< 2))
      ∧ (chan = 5 →
          commandByte (buildBatch channels k b vClockRate txMem) (i * k + j) = some 0x74) := by
  have hbound : i * k + j < k * b := by
    have h1 : (i + 1) * k ≤ b * k := Nat.mul_le_mul_right _ hi
    have h2 : (i + 1) * k = i * k + k := Nat.succ_mul _ _
    have h3 : b * k = k * b := Nat.mul_comm _ _
    omega
  have hmod : (i * k + j) % k = j := by
    rw [Nat.mul_comm, Nat.mul_add_mod, Nat.mod_eq_of_lt hj]
  have hget : channels.getD j 0 = chan := by
    rw [List.getD_eq_getElem?_getD, hchan]; rfl
  have hcmd := buildBatch_commandByte channels k b vClockRate txMem (i * k + j) hbound
  rw [hmod, hget, channelCommand_of_le chan h7] at hcmd
  refine ⟨hcmd, fun h5 => ?_⟩
  rw [hcmd, h5]
  rfl

theorem command_byte_of_descriptor_witness :
    commandByte (buildBatch [3, 5] 2 2 3600000 (fun _ => 0)) (1 * 2 + 1)
        = some (0x60 ||| (5 <<< 2))
      ∧ (5 = 5 →
          commandByte (buildBatch [3, 5] 2 2 3600000 (fun _ => 0)) (1 * 2 + 1) = some 0x74) :=
  command_byte_of_descriptor [3, 5] 2 2 3600000 (fun _ => 0) 1 1 5 (by decide) (by decide)
    rfl (by decide)

/-- C5: the elapsed time computed at lines 273-280 is exactly
`(end_sec - start_sec) + (end_usec - start_usec) / 1000000` as a rational number, whichever of
the two microsecond components is larger; from (1 s, 900000 us) to (2 s, 100000 us) it is 0.2 s
and from (0 s, 0 us) to (2 s, 500000 us) it is 2.5 s. -/
theorem elapsed_exact :
    (∀ start end_ : timeval,
        elapsed start end_ =
          ((end_.tv_sec : ℚ) - (start.tv_sec : ℚ))
            + ((end_.tv_usec : ℚ) - (start.tv_usec : ℚ)) / 1000000)
      ∧ elapsed ⟨1, 900000⟩ ⟨2, 100000⟩ = 1 / 5
      ∧ elapsed ⟨0, 0⟩ ⟨2, 500000⟩ = 5 / 2 := by
  have key : ∀ start end_ : timeval,
      elapsed start end_ =
        ((end_.tv_sec : ℚ) - (start.tv_sec : ℚ))
          + ((end_.tv_usec : ℚ) - (start.tv_usec : ℚ)) / 1000000 := by
    intro start end_
    unfold elapsed
    split
    · push_cast; ring
    · push_cast; ring
  refine ⟨key, ?_, ?_⟩
  · rw [key]; norm_num
  · rw [key]; norm_num

/-- C7 (fails on the code): with `-f 100 -b 5` the argument loop leaves `vFreq = 100` and
`vBlocks = 5`, and the batch is built with 5 descriptors; only in the order `-b 5 -f 100` is
`vBlocks` reset to 1. -/
theorem block_after_freq_not_reset :
    (parseCommandLine ["mcp3008hwspi", "-f", "100", "-b", "5"]).options.map
        (fun o => (o.vFreq, o.vBlocks)) = some (100, 5)
      ∧ (parseCommandLine ["mcp3008hwspi", "-f", "100", "-b", "5"]).options.map
        (fun o => (buildBatch o.channels o.ch_len o.vBlocks.toNat o.vClockRate
          (fun _ => 0)).tr.length) = some 5
      ∧ (parseCommandLine ["mcp3008hwspi", "-b", "5", "-f", "100"]).options.map
        (fun o => (o.vFreq, o.vBlocks)) = some (100, 1) := by
  refine ⟨by decide, by decide, by decide⟩

/-- C8 (fails on the code): `main` returns 0 when `open` fails, when the first warm-up `ioctl`
fails, and when the first measured `ioctl` fails; past the argument loop it returns 1 only when
the first `gettimeofday` fails. A rejected argument does give 1. -/
theorem bus_errors_exit_zero :
    (main { quietEnv with fd := -1 } ["mcp3008hwspi"] 0).exitCode = some 0
      ∧ (main { quietEnv with bus := fun _ => none } ["mcp3008hwspi"] 1).exitCode = some 0
      ∧ (main { quietEnv with bus := fun c => if c < 20 then some zeroResponse else none }
          ["mcp3008hwspi", "-b", "500"] 20).exitCode = some 0
      ∧ (∀ env o fuel, (run env o fuel).exitCode = some 1 → env.start = none)
      ∧ (main quietEnv ["mcp3008hwspi", "-b", "0"] 0).exitCode = some 1 := by
  refine ⟨by decide, by decide, by decide, ?_, by decide⟩
  intro env o fuel h
  cases hstart : env.start with
  | none => rfl
  | some st =>
    exfalso
    unfold run at h
    simp only [hstart] at h
    split_ifs at h
    all_goals first
      | (simp [MainResult.exitCode] at h; done)
      | (revert h
         generalize warmupLoop _ _ _ _ _ = w
         cases w with
         | outOfFuel => simp [MainResult.exitCode]
         | ioctlFailed s => simp [MainResult.exitCode]
         | done s =>
           simp only
           generalize measureLoop _ _ _ _ _ _ _ = m
           cases m <;> simp [MainResult.exitCode])

/-- C9 (fails on the code): `-c 00` is not rejected. The argument loop prints that channel 0
is listed twice and goes on, leaving `ch_len = 2` and the channel list `[0, 0]`, and `main`
goes on to the bus (here to a failing `ioctl`, after which it returns 0). With nine characters,
`-c 000000000`, the loop stores past the eight elements of `channels`. An out-of-range channel,
`-c 8`, is rejected with status 1. -/
theorem duplicate_channel_accepted :
    (parseCommandLine ["mcp3008hwspi", "-c", "00"]).options.map
        (fun o => (o.ch_len, o.channels.take o.ch_len, o.out))
        = some (2, [0, 0], [Msg.channelTwice 0, Msg.usage])
      ∧ (main { quietEnv with bus := fun _ => none } ["mcp3008hwspi", "-c", "00"] 1).exitCode
        = some 0
      ∧ parseCommandLine ["mcp3008hwspi", "-c", "000000000"] = .outOfBounds
      ∧ parseCommandLine ["mcp3008hwspi", "-c", "8"]
        = .exit 1 [Msg.wrongChannel 8, Msg.usage] := by
  refine ⟨by decide, by decide, by decide, by decide⟩

/-- C10 (fails on the code): with `-b 2 -n 1` (one channel, two blocks, one sample per channel)
the `data` block has one element, and the measured loop stores to indices 0 and 1. In general,
with the `int` arithmetic of the loop in range, whenever `b * k` does not divide `n * k` the
loop stores to index `k * n`, the first one past the `k * n` elements of the block. -/
theorem store_beyond_sample_buffer :
    (parseCommandLine ["mcp3008hwspi", "-b", "2", "-n", "1"]).options.map
        (fun o => (o.ch_len, o.vBlocks, o.vSamples)) = some (1, 2, 1)
      ∧ dataElems 1 1 = 1
      ∧ (measureLoop (fun _ => some zeroResponse)
          (buildBatch [0] 1 2 3600000 (fun _ => 0)).tr (1 * 2)
          (wrapInt (((1 : Nat) : Int) * 1)) 0 1
          { count := 0, calls := 0, rx := fun _ => 0, data := fun _ => 0, stores := [],
            slept := 0 }).stores = some [0, 1]
      ∧ ¬ (((1 : Nat) : Int) < dataElems 1 1)
      ∧ (∀ (channels : List Nat) (k b n : Nat) (vClockRate : Int) (txMem : Nat → Nat)
          (bus : Nat → Option Response) (microDelay : Int) (s0 : LoopState) (fuel : Nat),
          1 ≤ k → 1 ≤ b → n * k + b * k ≤ 2 ^ 31 → s0.count = 0 → (∀ c, bus c ≠ none) →
          k * n ≤ fuel → ¬ (b * k ∣ n * k) →
          ∃ st,
            measureLoop bus (buildBatch channels k b vClockRate txMem).tr (k * b)
                (wrapInt ((k : Int) * (n : Int))) microDelay fuel s0 = .done st
              ∧ ((k * n : Nat) : Int) ∈ st.stores
              ∧ ¬ (((k * n : Nat) : Int) < dataElems k n)) := by
  refine ⟨by decide, by decide, by decide, by decide, ?_⟩
  intro channels k b n vClockRate txMem bus microDelay s0 fuel hk hb hfit h0 hbus hfuel hndvd
  have hN : 0 < k * b := Nat.mul_pos hk hb
  have hfit' : k * n + k * b ≤ 2147483648 := by
    have h31 : (2 : Nat) ^ 31 = 2147483648 := by norm_num
    have hcomm : b * k = k * b := Nat.mul_comm b k
    have hcomm' : n * k = k * n := Nat.mul_comm n k
    omega
  obtain ⟨t', st, hrun, hcounted, hdone, _⟩ :=
    measureLoop_counted bus (buildBatch channels k b vClockRate txMem).tr k b n microDelay s0
      fuel hk hb hfit' h0 hbus hfuel
  have hne : k * n ≠ t' * (k * b) := by
    intro h
    apply hndvd
    rw [Nat.mul_comm n k, h, Nat.mul_comm b k]
    exact Dvd.intro_left t' rfl
  refine ⟨st, hrun, ?_, ?_⟩
  · rw [hcounted.2.2]
    exact List.mem_append_right _
      (List.mem_map.mpr ⟨k * n, List.mem_range.mpr (by omega), rfl⟩)
  · unfold dataElems
    rw [limit_eq k n (by omega)]
    exact lt_irrefl _

end Mcp3008hwspi
